import Mathlib

/-!
Verification of the SOL service-chaining example (`examples/ServiceChaining.py`)
and of the path-based traffic-engineering engine it drives, as described by the
repository's specification.  The example code is embedded directly; the engine
components (`sol.path`, `sol.opt`), whose sources are not in this repository,
are modelled from the specification and marked as such in their doc comments.

Numbers are modelled as rationals (`ℚ`); Python dictionaries as association
lists; Python exceptions as `Except` errors.
-/

namespace SOL

/-! ## Python value semantics needed by the example -/

/-- A Python value as it occurs in the example's filter expression:
either a string literal or a boolean. -/
inductive PyVal where
  | str (s : String)
  | bool (b : Bool)
deriving DecidableEq

/-- Python truthiness: a string is truthy iff non-empty; a bool is itself. -/
def PyVal.truthy : PyVal → Bool
  | .str s => s ≠ ""
  | .bool b => b

/-- Python `a or b`: returns `a` if `a` is truthy, else `b`. -/
def pyOr (a b : PyVal) : PyVal :=
  if a.truthy then a else b

/-- Python exceptions raised by the example's capacity functions. -/
inductive PyError where
  | valueError (msg : String)
  | keyError
deriving DecidableEq

/-! ## Data model (from the example and the spec's §3) -/

/-- Topology: node identifiers with their service-type tags
(`topo.nodes()` / `topo.getServiceTypes(node)` in the example). -/
structure Topology where
  nodes : List Nat
  serviceTypes : Nat → List String

/-- `topo.getServiceTypes(node)`. -/
def Topology.getServiceTypes (topo : Topology) (node : Nat) : List String :=
  topo.serviceTypes node

/-- A traffic class as used by the example: name, endpoints, volumes and the
caller-attached per-flow cpu cost. -/
structure TrafficClass where
  name : String
  src : Nat
  dst : Nat
  volFlows : ℚ
  volBytes : ℚ
  cpuCost : ℚ

/-- A candidate path: its node sequence and the annotated use-set
(`path.useMBoxes`) of middlebox-processing points. -/
structure Path where
  nodes : List Nat
  useMBoxes : List Nat
deriving DecidableEq

/-- A path traverses a node iff that node occurs in its node sequence. -/
def Path.traverses (p : Path) (node : Nat) : Bool :=
  p.nodes.contains node

/-! ## The example's node-capacity filter (ServiceChaining.py lines 62-63, 138-139)

Python parses `'fw' or 'ids' in topo.getServiceTypes(node)` as
`('fw') or ('ids' in topo.getServiceTypes(node))`. -/

/-- The filter expression `'fw' or 'ids' in topo.getServiceTypes(node)` as
Python evaluates it, applied to the node's service-type list. -/
def nodeCapFilterExpr (serviceTypes : List String) : Bool :=
  (pyOr (PyVal.str "fw") (PyVal.bool (serviceTypes.contains "ids"))).truthy

/-- The cpu capacity table `nodeCaps['cpu']` of lines 62-63: maps each node
passing the filter to `maxCPUCap * 2`. -/
def nodeCapsCpu (topo : Topology) (maxCPUCap : ℚ) : List (Nat × ℚ) :=
  (topo.nodes.filter fun node => nodeCapFilterExpr (topo.getServiceTypes node)).map
    fun node => (node, maxCPUCap * 2)

/-- The capacity table passed to `opt.capNodes` at lines 138-139: maps each
node passing the filter to `1`. -/
def cpuCapTableOne (topo : Topology) : List (Nat × ℚ) :=
  (topo.nodes.filter fun node => nodeCapFilterExpr (topo.getServiceTypes node)).map
    fun node => (node, (1 : ℚ))

/-! ## The example's capacity functions (lines 92-114) -/

/-- `nodeCapFunc` of lines 92-97: returns
`tc.volFlows * tc.cpuCost / nodeCaps[resource][node]` when `resource == 'cpu'`
and `node in nodeCaps['cpu']`, else raises `ValueError("wrong resource")`.
The curried cpu table `nodeCaps['cpu']` is passed as the last argument. -/
def nodeCapFunc (node : Nat) (tc : TrafficClass) (_path : Path) (resource : String)
    (nodeCapsCpuTable : List (Nat × ℚ)) : Except PyError ℚ :=
  match resource == "cpu", nodeCapsCpuTable.lookup node with
  | true, some cap => .ok (tc.volFlows * tc.cpuCost / cap)
  | true, none => .error (.valueError "wrong resource")
  | false, _ => .error (.valueError "wrong resource")

/-- `linkCapFunc` of lines 99-103: returns `tc.volBytes / linkCaps[link]` with
no check of `resource` at all; the only failure is the dictionary lookup
`linkCaps[link]` raising `KeyError` for an unknown link. -/
def linkCapFunc (link : Nat × Nat) (tc : TrafficClass) (_path : Path)
    (_resource : String) (linkCaps : List ((Nat × Nat) × ℚ)) : Except PyError ℚ :=
  match linkCaps.lookup link with
  | some cap => .ok (tc.volBytes / cap)
  | none => .error .keyError

/-- `TCAMCapFunc` of lines 109-114: returns `2` when `resource == 'tcam'`,
else raises `ValueError("wrong resource")`. -/
def TCAMCapFunc (_node : Nat) (_tc : TrafficClass) (_path : Path)
    (resource : String) : Except PyError ℚ :=
  if resource == "tcam" then .ok 2 else .error (.valueError "wrong resource")

/-! ## The example's path predicate (lines 84-89) -/

/-- `itertools.product(*lists)`: all tuples taking one element from each list,
in Python's document order (leftmost list varies slowest). A tuple of length
`n` is modelled as a list of length `n`. -/
def pyProduct : List (List String) → List (List String)
  | [] => [[]]
  | l :: ls => l.flatMap fun a => (pyProduct ls).map fun rest => a :: rest

/-- `path_predicate` of lines 84-89:
`any([s == ('fw', 'ids') for s in itertools.product(*[topology.getServiceTypes(node)
for node in path.useMBoxes])])`. -/
def path_predicate (path : Path) (topology : Topology) : Bool :=
  (pyProduct (path.useMBoxes.map topology.getServiceTypes)).any
    fun s => s == ["fw", "ids"]

/-! ## Path generation (spec §4.3): `sol.path` is not in this repository -/

/-- Modelled from the spec: the routing-infeasibility error of §4.3 step 4 /
§7 (`NoPathFoundError`, raised inside `generatePathsPerTrafficClass` /
`initOptimization`, whose sources are not in `src/`): it names the offending
traffic class. -/
structure NoPathFoundError where
  tcName : String
deriving DecidableEq

/-- Modelled from the spec: steps 2-3 of the per-traffic-class pipeline of
§4.3 (the `sol.path` implementation is not in `src/`): apply the modifier to
each candidate path to annotate its use-set, then keep exactly the paths the
caller's predicate accepts. -/
def acceptedPaths (modifier : Path → Path) (pred : Path → Bool)
    (candidates : List Path) : List Path :=
  (candidates.map modifier).filter pred

/-- Modelled from the spec: `generatePathsPerTrafficClass` of §4.3 (not in
`src/`). For each traffic class independently, filter its candidate universe
through the modifier and predicate; if the accepted set of some class is
empty, fail the whole setup with a `NoPathFoundError` naming that class. -/
def generatePathsPerTrafficClass (tcs : List TrafficClass)
    (candidates : TrafficClass → List Path)
    (modifier : Path → Path) (pred : Path → Bool) :
    Except NoPathFoundError (List (TrafficClass × List Path)) :=
  match tcs with
  | [] => .ok []
  | tc :: rest =>
    let acc := acceptedPaths modifier pred (candidates tc)
    if acc.isEmpty then .error ⟨tc.name⟩
    else
      match generatePathsPerTrafficClass rest candidates modifier pred with
      | .error e => .error e
      | .ok r => .ok ((tc, acc) :: r)

/-- Modelled from the spec: the explicitly seeded pseudo-random source of
§4.3 / §9 used by `random-k` selection (`sol.path.chooserand` is not in
`src/`): a linear congruential step on the seed state. -/
def lcgNext (s : Nat) : Nat :=
  (1103515245 * s + 12345) % 2 ^ 31

/-- Modelled from the spec: the draw loop of `random-k` selection (§4.3
step 1, not in `src/`): at each step advance the seed state, pick the path at
the pseudo-random index, and continue without replacement on the rest. -/
def chooserandGo : Nat → Nat → List Path → List Path
  | _, 0, _ => []
  | _, _ + 1, [] => []
  | s, k + 1, p :: rest =>
    let s' := lcgNext s
    let i := s' % (p :: rest).length
    (p :: rest).getD i p :: chooserandGo s' k ((p :: rest).eraseIdx i)

/-- Modelled from the spec: `chooserand` of §4.3 (not in `src/`): draw `k`
paths without replacement from the accepted universe, driven entirely by the
explicit `seed` parameter; if fewer than `k` paths are available, return them
all (no padding, no retry). -/
def chooserand (seed : Nat) (k : Nat) (paths : List Path) : List Path :=
  chooserandGo seed k paths

/-! ## Model Builder (spec §4.5): `sol.opt` is not in this repository -/

/-- Decision-variable identifiers of the optimization model (§3): a
continuous path-fraction variable per (traffic class, path), a binary
variable per (path, element), and the min-max auxiliary variable. Classes and
their paths are identified by position in `pptc`. -/
inductive VarId where
  | flow (tcIdx : Nat) (pathIdx : Nat)
  | bin (tcIdx : Nat) (pathIdx : Nat) (node : Nat)
  | loadAux
deriving DecidableEq

/-- A linear term `coeff * variable`. -/
structure LinTerm where
  coeff : ℚ
  var : VarId
deriving DecidableEq

/-- A linear constraint: equality or upper bound of a sum of terms. -/
inductive Constraint where
  | eqC (terms : List LinTerm) (rhs : ℚ)
  | leC (terms : List LinTerm) (rhs : ℚ)
deriving DecidableEq

/-- Value of a sum of linear terms under a variable assignment. -/
def evalTerms (v : VarId → ℚ) (ts : List LinTerm) : ℚ :=
  (ts.map fun t => t.coeff * v t.var).sum

/-- Satisfaction of a constraint by a variable assignment. -/
def Constraint.sat (v : VarId → ℚ) : Constraint → Prop
  | .eqC ts r => evalTerms v ts = r
  | .leC ts r => evalTerms v ts ≤ r

instance (v : VarId → ℚ) (c : Constraint) : Decidable (Constraint.sat v c) :=
  match c with
  | .eqC ts r => inferInstanceAs (Decidable (evalTerms v ts = r))
  | .leC ts r => inferInstanceAs (Decidable (evalTerms v ts ≤ r))

/-- Modelled from the spec: the optimization model handed back by
`initOptimization` (§6, not in `src/`), created empty and populated
incrementally by the Model Builder operations. -/
structure OptModel where
  constraints : List Constraint
deriving DecidableEq

/-- Modelled from the spec: `initOptimization` (§6, not in `src/`): run the
predicate-filtered path generation per traffic class (propagating its
`NoPathFoundError`, so that no model is returned on failure), select `k`
paths per class with the explicitly seeded random-k chooser, and hand back a
fresh empty model alongside the path-per-traffic-class mapping. -/
def initOptimization (tcs : List TrafficClass)
    (candidates : TrafficClass → List Path) (modifier : Path → Path)
    (pred : Path → Bool) (seed : Nat) (k : Nat) :
    Except NoPathFoundError (OptModel × List (TrafficClass × List Path)) :=
  match generatePathsPerTrafficClass tcs candidates modifier pred with
  | .error e => .error e
  | .ok pptc => .ok (⟨[]⟩, pptc.map fun e => (e.1, chooserand seed k e.2))

/-- Modelled from the spec: the allocation constraints of §4.5
(`opt.routeAll` / `addAllocationConstraints`, not in `src/`): one equality per
traffic class, summing that class's path-fraction variables (unit
coefficients, no other variable) to exactly 1. `i` is the index of the first
class. -/
def routeAllConsFrom : Nat → List (TrafficClass × List Path) → List Constraint
  | _, [] => []
  | i, (_, paths) :: rest =>
    Constraint.eqC ((List.range paths.length).map fun j => ⟨1, VarId.flow i j⟩) 1
      :: routeAllConsFrom (i + 1) rest

/-- Modelled from the spec: `opt.routeAll(pptc)` (§4.5, not in `src/`). -/
def routeAll (pptc : List (TrafficClass × List Path)) : List Constraint :=
  routeAllConsFrom 0 pptc

/-- Sum of the path-fraction variables of the class at index `i` having `n`
candidate paths. -/
def flowSum (v : VarId → ℚ) (i : Nat) (n : Nat) : ℚ :=
  ((List.range n).map fun j => v (VarId.flow i j)).sum

/-- Modelled from the spec: the per-class terms of an element-capacity
constraint (§4.5 `addElementCapacityConstraint`, not in `src/`): one term per
path of the class (at index `i`) traversing the element, with coefficient
`capacityFunction` times the binary variable when the resource is charged per
discrete placement (`useBinary`), else times class volume on the flow
variable. `j` is the index of the first path. -/
def classCapTerms (node : Nat) (coeff : Nat → TrafficClass → Path → ℚ)
    (vol : TrafficClass → ℚ) (useBinary : Bool) (i : Nat) (tc : TrafficClass) :
    Nat → List Path → List LinTerm
  | _, [] => []
  | j, p :: rest =>
    (if p.traverses node then
      [if useBinary then ⟨coeff node tc p, VarId.bin i j node⟩
       else ⟨coeff node tc p * vol tc, VarId.flow i j⟩]
     else [])
      ++ classCapTerms node coeff vol useBinary i tc (j + 1) rest

/-- Modelled from the spec: all terms of the capacity constraint of one
element, summed over the traffic classes (§4.5, not in `src/`). -/
def capTermsFrom (node : Nat) (coeff : Nat → TrafficClass → Path → ℚ)
    (vol : TrafficClass → ℚ) (useBinary : Bool) :
    Nat → List (TrafficClass × List Path) → List LinTerm
  | _, [] => []
  | i, (tc, paths) :: rest =>
    classCapTerms node coeff vol useBinary i tc 0 paths
      ++ capTermsFrom node coeff vol useBinary (i + 1) rest

/-- Modelled from the spec: `addElementCapacityConstraint` /
`opt.capNodesPathResource` (§4.5, not in `src/`): one `≤ capacityTable[e]`
constraint per element present in the capacity table, and none for any other
element. -/
def capElementConstraints (pptc : List (TrafficClass × List Path))
    (capTable : List (Nat × ℚ)) (coeff : Nat → TrafficClass → Path → ℚ)
    (vol : TrafficClass → ℚ) (useBinary : Bool) : List Constraint :=
  capTable.map fun ec =>
    Constraint.leC (capTermsFrom ec.1 coeff vol useBinary 0 pptc) ec.2

/-- Aggregated load of one class at an element, as the spec's testable
property words it: the sum over the class's paths traversing the element of
`coefficient × (binary variable if one exists for the dimension, else flow
variable × class volume)`. -/
def classLoad (node : Nat) (coeff : Nat → TrafficClass → Path → ℚ)
    (vol : TrafficClass → ℚ) (useBinary : Bool) (i : Nat) (tc : TrafficClass)
    (v : VarId → ℚ) : Nat → List Path → ℚ
  | _, [] => 0
  | j, p :: rest =>
    (if p.traverses node then
      coeff node tc p *
        (if useBinary then v (VarId.bin i j node) else v (VarId.flow i j) * vol tc)
     else 0)
      + classLoad node coeff vol useBinary i tc v (j + 1) rest

/-- Aggregated load at an element: the sum over traffic classes of the class
loads. -/
def aggLoadFrom (node : Nat) (coeff : Nat → TrafficClass → Path → ℚ)
    (vol : TrafficClass → ℚ) (useBinary : Bool) (v : VarId → ℚ) :
    Nat → List (TrafficClass × List Path) → ℚ
  | _, [] => 0
  | i, (tc, paths) :: rest =>
    classLoad node coeff vol useBinary i tc v 0 paths
      + aggLoadFrom node coeff vol useBinary v (i + 1) rest

/-- Aggregated load at an element over all traffic classes of `pptc`. -/
def aggLoad (node : Nat) (coeff : Nat → TrafficClass → Path → ℚ)
    (vol : TrafficClass → ℚ) (useBinary : Bool) (v : VarId → ℚ)
    (pptc : List (TrafficClass × List Path)) : ℚ :=
  aggLoadFrom node coeff vol useBinary v 0 pptc

/-! ## Solution extraction (spec §4.7): `sol.opt` is not in this repository -/

/-- The numerical tolerance of the spec (default `1e-6`). -/
def tol : ℚ := 1 / 1000000

/-- Modelled from the spec: the extraction-inconsistency error of §4.7 / §7
(not in `src/`). -/
structure ExtractionInconsistencyError where
  tcName : String
deriving DecidableEq

/-- The raw (path, fraction) pairs of the class at index `i`, read off the
solved variable assignment. -/
def classFracs (v : VarId → ℚ) (i : Nat) : Nat → List Path → List (Path × ℚ)
  | _, [] => []
  | j, p :: rest => (p, v (VarId.flow i j)) :: classFracs v i (j + 1) rest

/-- Modelled from the spec: the per-class step of the Solution Extractor
(§4.7, not in `src/`): drop fractions below the tolerance; the remaining
fractions must sum to 1 within the tolerance, otherwise report an
inconsistency error — never renormalize. -/
def extractClass (tcName : String) (fracs : List (Path × ℚ)) :
    Except ExtractionInconsistencyError (List (Path × ℚ)) :=
  let kept := fracs.filter fun pf => tol ≤ pf.2
  if |(kept.map Prod.snd).sum - 1| ≤ tol then .ok kept else .error ⟨tcName⟩

/-- Modelled from the spec: `opt.getPathFractions(pptc)` (§4.7 `extract`, not
in `src/`): extract every class of `pptc` in order, propagating the first
inconsistency error. `i` is the index of the first class. -/
def getPathFractionsFrom (v : VarId → ℚ) :
    Nat → List (TrafficClass × List Path) →
    Except ExtractionInconsistencyError (List (TrafficClass × List (Path × ℚ)))
  | _, [] => .ok []
  | i, (tc, paths) :: rest =>
    match extractClass tc.name (classFracs v i 0 paths) with
    | .error e => .error e
    | .ok kept =>
      match getPathFractionsFrom v (i + 1) rest with
      | .error e => .error e
      | .ok r => .ok ((tc, kept) :: r)

/-- Modelled from the spec: `opt.getPathFractions(pptc)` over all classes. -/
def getPathFractions (v : VarId → ℚ)
    (pptc : List (TrafficClass × List Path)) :
    Except ExtractionInconsistencyError (List (TrafficClass × List (Path × ℚ))) :=
  getPathFractionsFrom v 0 pptc

/-! ## Concrete instances used to exercise the definitions -/

/-- A concrete traffic class in the style of the Abilene example: volume 3
flows / 2000 bytes, cpu cost 10. -/
def tcEx : TrafficClass :=
  { name := "tc0", src := 0, dst := 1, volFlows := 3, volBytes := 2000, cpuCost := 10 }

/-- A concrete two-hop path whose use-set is both of its nodes. -/
def pEx : Path := { nodes := [0, 1], useMBoxes := [0, 1] }

/-- A concrete two-node topology where every node is tagged `fw` and `ids`,
as the example sets up Abilene. -/
def topoEx : Topology := { nodes := [0, 1], serviceTypes := fun _ => ["fw", "ids"] }

/-- A concrete link-capacity table holding only the link `(0, 1)`. -/
def lcapsEx : List ((Nat × Nat) × ℚ) := [((0, 1), 100)]

/-- A concrete path-per-traffic-class mapping: the single class `tcEx` routed
over the single path `pEx`. -/
def pptcEx : List (TrafficClass × List Path) := [(tcEx, [pEx])]

/-- A concrete solved variable assignment: the whole of `tcEx` on `pEx`. -/
def vEx : VarId → ℚ
  | .flow 0 0 => 1
  | _ => 0

end SOL

namespace SOL

/-! ## Helper lemmas -/

/-- The example's comprehension filter is the constant `true`: `'fw'` is a
non-empty string, so Python's `or` returns it and the filter is truthy. -/
theorem nodeCapFilterExpr_eq_true (st : List String) :
    nodeCapFilterExpr st = true := by
  simp [nodeCapFilterExpr, pyOr, PyVal.truthy]

/-- Filtering the node list with the example's filter keeps every node. -/
theorem filter_nodeCapFilterExpr (topo : Topology) :
    (topo.nodes.filter fun node => nodeCapFilterExpr (topo.getServiceTypes node))
      = topo.nodes :=
  List.filter_eq_self.mpr fun _ _ => nodeCapFilterExpr_eq_true _

/-- Looking up a key in a constant-valued association list built over a node
list that contains the key yields that constant. -/
theorem lookup_map_pair (c : ℚ) :
    ∀ (l : List Nat) (node : Nat), node ∈ l →
      (l.map fun n => (n, c)).lookup node = some c := by
  intro l
  induction l with
  | nil => intro node h; cases h
  | cons a t ih =>
    intro node h
    by_cases hna : node = a
    · subst hna; simp [List.lookup]
    · have : node ∈ t := by
        rcases List.mem_cons.mp h with h1 | h1
        · exact absurd h1 hna
        · exact h1
      simpa [List.lookup, beq_false_of_ne hna] using ih node this

/-- Membership in the model of `itertools.product`: a tuple is produced iff
it picks, position by position, one element of each input list. -/
theorem mem_pyProduct :
    ∀ {ls : List (List String)} {l : List String},
      l ∈ pyProduct ls ↔ List.Forall₂ (fun a la => a ∈ la) l ls := by
  intro ls
  induction ls with
  | nil =>
    intro l
    simp [pyProduct, List.forall₂_nil_right_iff]
  | cons la ls ih =>
    intro l
    simp only [pyProduct, List.mem_flatMap, List.mem_map,
      List.forall₂_cons_right_iff]
    constructor
    · rintro ⟨a, ha, r, hr, rfl⟩
      exact ⟨a, r, ha, ih.mp hr, rfl⟩
    · rintro ⟨a, r, ha, hr, rfl⟩
      exact ⟨a, ha, r, ih.mpr hr, rfl⟩

/-- Every path drawn by the seeded chooser comes from the input universe. -/
theorem chooserandGo_subset :
    ∀ (k s : Nat) (l : List Path) (x : Path), x ∈ chooserandGo s k l → x ∈ l := by
  intro k
  induction k with
  | zero => intro s l x h; simp [chooserandGo] at h
  | succ k ih =>
    intro s l x h
    match l with
    | [] => simp [chooserandGo] at h
    | p :: rest =>
      simp only [chooserandGo, List.mem_cons] at h
      rcases h with h1 | h1
      · have hi : lcgNext s % (p :: rest).length < (p :: rest).length :=
          Nat.mod_lt _ (by simp)
        rw [h1, List.getD_eq_getElem _ _ hi]
        exact List.getElem_mem hi
      · exact List.mem_of_mem_eraseIdx (ih _ _ x h1)

/-- On success, path generation returns only predicate-accepted paths. -/
theorem generatePaths_ok_pred :
    ∀ (tcs : List TrafficClass) (candidates : TrafficClass → List Path)
      (modifier : Path → Path) (pred : Path → Bool)
      (pptc : List (TrafficClass × List Path)),
      generatePathsPerTrafficClass tcs candidates modifier pred = .ok pptc →
      ∀ e ∈ pptc, ∀ p ∈ e.2, pred p = true := by
  intro tcs
  induction tcs with
  | nil =>
    intro cands modifier pred pptc h
    simp only [generatePathsPerTrafficClass] at h
    injection h with h'
    subst h'
    intro e he
    cases he
  | cons tc rest ih =>
    intro cands modifier pred pptc h
    simp only [generatePathsPerTrafficClass] at h
    by_cases he : (acceptedPaths modifier pred (cands tc)).isEmpty
    · rw [if_pos he] at h; cases h
    · rw [if_neg he] at h
      cases hg : generatePathsPerTrafficClass rest cands modifier pred with
      | error e => rw [hg] at h; cases h
      | ok r =>
        rw [hg] at h
        injection h with h'
        subst h'
        intro e he' p hp
        rcases List.mem_cons.mp he' with h1 | h1
        · subst h1
          exact List.of_mem_filter hp
        · exact ih cands modifier pred r hg e h1 p hp

/-- When some class's accepted set is empty, path generation fails with a
`NoPathFoundError` naming a class whose accepted set is empty. -/
theorem generatePaths_error_of_empty :
    ∀ (tcs : List TrafficClass) (candidates : TrafficClass → List Path)
      (modifier : Path → Path) (pred : Path → Bool),
      (∃ tc ∈ tcs, acceptedPaths modifier pred (candidates tc) = []) →
      ∃ tc ∈ tcs, acceptedPaths modifier pred (candidates tc) = [] ∧
        generatePathsPerTrafficClass tcs candidates modifier pred =
          .error ⟨tc.name⟩ := by
  intro tcs
  induction tcs with
  | nil =>
    rintro _ _ _ ⟨tc, h, _⟩
    cases h
  | cons tc rest ih =>
    rintro cands modifier pred ⟨tc0, htc0, hemp⟩
    by_cases he : (acceptedPaths modifier pred (cands tc)).isEmpty
    · refine ⟨tc, List.mem_cons_self tc rest, List.isEmpty_iff.mp he, ?_⟩
      simp only [generatePathsPerTrafficClass]
      rw [if_pos he]
    · have h0 : tc0 ∈ rest := by
        rcases List.mem_cons.mp htc0 with h1 | h1
        · subst h1; exact absurd (List.isEmpty_iff.mpr hemp) he
        · exact h1
      obtain ⟨tc1, h1, hemp1, herr⟩ := ih cands modifier pred ⟨tc0, h0, hemp⟩
      refine ⟨tc1, List.mem_cons_of_mem _ h1, hemp1, ?_⟩
      simp only [generatePathsPerTrafficClass]
      rw [if_neg he, herr]

/-- Evaluating the unit-coefficient terms of an allocation constraint gives
the plain sum of the class's path-fraction variables. -/
theorem evalTerms_unit_flow (v : VarId → ℚ) (i n : Nat) :
    evalTerms v ((List.range n).map fun j => ⟨1, VarId.flow i j⟩) =
      flowSum v i n := by
  simp [evalTerms, flowSum, List.map_map, Function.comp_def]

/-- The allocation constraints starting at class index `i` are satisfied iff
each class of the indexed mapping has its path-fraction variables summing to
exactly 1. -/
theorem routeAllConsFrom_sat_iff (v : VarId → ℚ) :
    ∀ (pptc : List (TrafficClass × List Path)) (i : Nat),
      (∀ c ∈ routeAllConsFrom i pptc, c.sat v) ↔
        ∀ e ∈ pptc.enumFrom i, flowSum v e.1 e.2.2.length = 1 := by
  intro pptc
  induction pptc with
  | nil => intro i; simp [routeAllConsFrom]
  | cons hd rest ih =>
    intro i
    obtain ⟨tc, paths⟩ := hd
    simp only [routeAllConsFrom, List.enumFrom_cons, List.forall_mem_cons]
    rw [ih (i + 1)]
    constructor
    · rintro ⟨h1, h2⟩
      refine ⟨?_, h2⟩
      simp only [Constraint.sat] at h1
      rw [evalTerms_unit_flow] at h1
      exact h1
    · rintro ⟨h1, h2⟩
      refine ⟨?_, h2⟩
      simp only [Constraint.sat]
      rw [evalTerms_unit_flow]
      exact h1

/-- Evaluation of linear terms distributes over list append. -/
theorem evalTerms_append (v : VarId → ℚ) (ts1 ts2 : List LinTerm) :
    evalTerms v (ts1 ++ ts2) = evalTerms v ts1 + evalTerms v ts2 := by
  simp [evalTerms]

/-- The terms a class contributes to an element-capacity constraint evaluate
to that class's aggregated load at the element. -/
theorem evalTerms_classCapTerms (node : Nat)
    (coeff : Nat → TrafficClass → Path → ℚ) (vol : TrafficClass → ℚ)
    (ub : Bool) (i : Nat) (tc : TrafficClass) (v : VarId → ℚ) :
    ∀ (paths : List Path) (j : Nat),
      evalTerms v (classCapTerms node coeff vol ub i tc j paths) =
        classLoad node coeff vol ub i tc v j paths := by
  intro paths
  induction paths with
  | nil => intro j; simp [classCapTerms, classLoad, evalTerms]
  | cons p rest ih =>
    intro j
    simp only [classCapTerms, classLoad]
    rw [evalTerms_append, ih (j + 1)]
    congr 1
    by_cases ht : p.traverses node
    · rw [if_pos ht, if_pos ht]
      cases ub
      · simp only [Bool.false_eq_true, if_false]
        simp [evalTerms]
        ring
      · simp only [if_true]
        simp [evalTerms]
    · rw [if_neg ht, if_neg ht]
      simp [evalTerms]

/-- The full term list of an element-capacity constraint evaluates to the
aggregated load at the element. -/
theorem evalTerms_capTermsFrom (node : Nat)
    (coeff : Nat → TrafficClass → Path → ℚ) (vol : TrafficClass → ℚ)
    (ub : Bool) (v : VarId → ℚ) :
    ∀ (pptc : List (TrafficClass × List Path)) (i : Nat),
      evalTerms v (capTermsFrom node coeff vol ub i pptc) =
        aggLoadFrom node coeff vol ub v i pptc := by
  intro pptc
  induction pptc with
  | nil => intro i; simp [capTermsFrom, aggLoadFrom, evalTerms]
  | cons hd rest ih =>
    intro i
    obtain ⟨tc, paths⟩ := hd
    simp only [capTermsFrom, aggLoadFrom]
    rw [evalTerms_append, ih (i + 1), evalTerms_classCapTerms]

/-- Inversion of a successful per-class extraction: the kept fractions are
exactly the above-tolerance raw fractions (no renormalization) and their sum
passed the tolerance check. -/
theorem extractClass_ok (tcName : String) (fracs kept : List (Path × ℚ))
    (h : extractClass tcName fracs = .ok kept) :
    kept = fracs.filter (fun pf => tol ≤ pf.2) ∧
      |(kept.map Prod.snd).sum - 1| ≤ tol := by
  simp only [extractClass] at h
  by_cases hcond :
      |((fracs.filter fun pf => tol ≤ pf.2).map Prod.snd).sum - 1| ≤ tol
  · rw [if_pos hcond] at h
    injection h with h'
    subst h'
    exact ⟨rfl, hcond⟩
  · rw [if_neg hcond] at h
    cases h

/-- Every raw fraction read off for the class at index `i` is the value of
one of that class's flow variables. -/
theorem classFracs_snd (v : VarId → ℚ) (i : Nat) :
    ∀ (paths : List Path) (j : Nat) (pf : Path × ℚ),
      pf ∈ classFracs v i j paths → ∃ j', pf.2 = v (VarId.flow i j') := by
  intro paths
  induction paths with
  | nil => intro j pf h; simp [classFracs] at h
  | cons p rest ih =>
    intro j pf h
    simp only [classFracs, List.mem_cons] at h
    rcases h with h | h
    · exact ⟨j, by rw [h]⟩
    · exact ih (j + 1) pf h

/-- Every class entry of a successful extraction arises from a successful
per-class extraction of some class's raw fractions. -/
theorem getPathFractionsFrom_ok (v : VarId → ℚ) :
    ∀ (pptc : List (TrafficClass × List Path)) (i : Nat)
      (sol : List (TrafficClass × List (Path × ℚ))),
      getPathFractionsFrom v i pptc = .ok sol →
      ∀ e ∈ sol, ∃ idx paths,
        extractClass e.1.name (classFracs v idx 0 paths) = .ok e.2 := by
  intro pptc
  induction pptc with
  | nil =>
    intro i sol h e he
    simp only [getPathFractionsFrom] at h
    injection h with h'
    subst h'
    cases he
  | cons hd rest ih =>
    intro i sol h e he
    obtain ⟨tc, paths⟩ := hd
    simp only [getPathFractionsFrom] at h
    cases hx : extractClass tc.name (classFracs v i 0 paths) with
    | error er => rw [hx] at h; cases h
    | ok kept =>
      rw [hx] at h
      cases hr : getPathFractionsFrom v (i + 1) rest with
      | error er => rw [hr] at h; cases h
      | ok r =>
        rw [hr] at h
        injection h with h'
        subst h'
        rcases List.mem_cons.mp he with h1 | h1
        · subst h1
          exact ⟨i, paths, hx⟩
        · exact ih (i + 1) r hr e h1

/-! ## Claim theorems -/

/-- C2: the filter expression `'fw' or 'ids' in topo.getServiceTypes(node)`
evaluates to true for every node of every topology, and consequently both
dictionary comprehensions built with it (the `nodeCaps['cpu']` table of lines
62-63 and the `opt.capNodes` table of lines 138-139) have every node of the
topology as a key. -/
theorem nodeCapFilter_always_true :
    (∀ st : List String, nodeCapFilterExpr st = true) ∧
    (∀ (topo : Topology) (cap : ℚ),
      (nodeCapsCpu topo cap).map Prod.fst = topo.nodes ∧
      (cpuCapTableOne topo).map Prod.fst = topo.nodes) := by
  refine ⟨nodeCapFilterExpr_eq_true, fun topo cap => ⟨?_, ?_⟩⟩
  · rw [nodeCapsCpu, filter_nodeCapFilterExpr, List.map_map]
    simp [Function.comp_def]
  · rw [cpuCapTableOne, filter_nodeCapFilterExpr, List.map_map]
    simp [Function.comp_def]

/-- C9: `path_predicate` accepts a path iff its use-set is exactly two nodes,
the first of which carries the service-type tag `fw` and the second the tag
`ids`; every use-set of any other length is rejected, because the tuples
produced by `itertools.product` have the use-set's length and are compared
for equality against the length-2 tuple `('fw', 'ids')`. -/
theorem path_predicate_iff (path : Path) (topo : Topology) :
    path_predicate path topo = true ↔
      ∃ u0 u1, path.useMBoxes = [u0, u1] ∧
        "fw" ∈ topo.getServiceTypes u0 ∧ "ids" ∈ topo.getServiceTypes u1 := by
  rw [path_predicate, List.any_eq_true]
  constructor
  · rintro ⟨s, hs, hseq⟩
    rw [beq_iff_eq] at hseq
    subst hseq
    have h2 := mem_pyProduct.mp hs
    rcases hu : path.useMBoxes with _ | ⟨u0, _ | ⟨u1, _ | ⟨u2, t⟩⟩⟩ <;>
      rw [hu] at h2 <;> simp [List.forall₂_cons] at h2
    exact ⟨u0, u1, rfl, h2.1, h2.2⟩
  · rintro ⟨u0, u1, hmb, h0, h1⟩
    refine ⟨["fw", "ids"], ?_, by simp⟩
    rw [hmb]
    exact mem_pyProduct.mpr (by simp [List.forall₂_cons, h0, h1])

/-- C9 witness: the predicate's characterization applied to a concrete
accepted path on the concrete topology. -/
theorem path_predicate_iff_witness : path_predicate pEx topoEx = true :=
  (path_predicate_iff pEx topoEx).mpr ⟨0, 1, rfl, by decide, by decide⟩

/-- C10: whenever `resource == 'cpu'` and the queried node is a node of the
topology, `nodeCapFunc`'s error branch is unreachable: the table
`nodeCaps['cpu']`, built with the always-true filter, has every topology node
as a key with value `maxCPUCap * 2`, so the function returns
`tc.volFlows * tc.cpuCost / nodeCaps['cpu'][node]`. -/
theorem nodeCapFunc_cpu_no_error (topo : Topology) (cap : ℚ) (tc : TrafficClass)
    (p : Path) (node : Nat) (h : node ∈ topo.nodes) :
    (nodeCapsCpu topo cap).lookup node = some (cap * 2) ∧
    nodeCapFunc node tc p "cpu" (nodeCapsCpu topo cap) =
      Except.ok (tc.volFlows * tc.cpuCost / (cap * 2)) := by
  have hl : (nodeCapsCpu topo cap).lookup node = some (cap * 2) := by
    rw [nodeCapsCpu, filter_nodeCapFilterExpr]
    exact lookup_map_pair (cap * 2) topo.nodes node h
  exact ⟨hl, by rw [nodeCapFunc, hl]; rfl⟩

/-- C10 witness: the cpu branch evaluated at a concrete topology node. -/
theorem nodeCapFunc_cpu_no_error_witness :
    (nodeCapsCpu topoEx 4).lookup 0 = some (4 * 2) ∧
    nodeCapFunc 0 tcEx pEx "cpu" (nodeCapsCpu topoEx 4) =
      Except.ok (tcEx.volFlows * tcEx.cpuCost / (4 * 2)) :=
  nodeCapFunc_cpu_no_error topoEx 4 tcEx pEx 0 (by decide)

/-- C1 counterexample: `linkCapFunc` called with the resource name `'cpu'`,
which is not `'bandwidth'`, does not raise — it returns the coefficient
`tc.volBytes / linkCaps[link]`, because its body never inspects the resource
argument. -/
theorem linkCapFunc_wrong_resource_no_raise :
    ("cpu" : String) ≠ "bandwidth" ∧
    linkCapFunc (0, 1) tcEx pEx "cpu" lcapsEx = Except.ok (2000 / 100) :=
  ⟨by decide, rfl⟩

/-- C1 amended: of the three user-defined capacity functions, `nodeCapFunc`
raises `ValueError` for every resource other than `'cpu'` and `TCAMCapFunc`
raises `ValueError` for every resource other than `'tcam'`, but `linkCapFunc`
performs no resource check at all: its result is the same for every resource
name, so an unsupported resource never raises there. -/
theorem capFuncs_wrong_resource (resource : String) (node : Nat)
    (tc : TrafficClass) (p : Path) (caps : List (Nat × ℚ)) (link : Nat × Nat)
    (lcaps : List ((Nat × Nat) × ℚ)) :
    (resource ≠ "cpu" →
      nodeCapFunc node tc p resource caps =
        Except.error (PyError.valueError "wrong resource")) ∧
    (resource ≠ "tcam" →
      TCAMCapFunc node tc p resource =
        Except.error (PyError.valueError "wrong resource")) ∧
    linkCapFunc link tc p resource lcaps =
      linkCapFunc link tc p "bandwidth" lcaps := by
  refine ⟨fun h => ?_, fun h => ?_, rfl⟩
  · have hb : (resource == "cpu") = false := beq_false_of_ne h
    rw [nodeCapFunc, hb]
  · have hb : (resource == "tcam") = false := beq_false_of_ne h
    rw [TCAMCapFunc, hb]
    rfl

/-- C1 amended witness: the three behaviors at the concrete resource name
`'mem'`. -/
theorem capFuncs_wrong_resource_witness :
    nodeCapFunc 0 tcEx pEx "mem" [] =
      Except.error (PyError.valueError "wrong resource") ∧
    TCAMCapFunc 0 tcEx pEx "mem" =
      Except.error (PyError.valueError "wrong resource") ∧
    linkCapFunc (0, 1) tcEx pEx "mem" lcapsEx =
      linkCapFunc (0, 1) tcEx pEx "bandwidth" lcapsEx :=
  ⟨(capFuncs_wrong_resource "mem" 0 tcEx pEx [] (0, 1) lcapsEx).1 (by decide),
   (capFuncs_wrong_resource "mem" 0 tcEx pEx [] (0, 1) lcapsEx).2.1 (by decide),
   (capFuncs_wrong_resource "mem" 0 tcEx pEx [] (0, 1) lcapsEx).2.2⟩

/-- C5: if the predicate accepts zero candidate paths for some traffic class,
the whole optimization setup fails with a `NoPathFoundError` naming a class
with zero accepted paths, and `initOptimization` returns no model and no
path-per-class mapping at all. -/
theorem initOptimization_noPathFound (tcs : List TrafficClass)
    (candidates : TrafficClass → List Path) (modifier : Path → Path)
    (pred : Path → Bool) (seed k : Nat)
    (h : ∃ tc ∈ tcs, acceptedPaths modifier pred (candidates tc) = []) :
    ∃ tc ∈ tcs, acceptedPaths modifier pred (candidates tc) = [] ∧
      initOptimization tcs candidates modifier pred seed k =
        .error ⟨tc.name⟩ := by
  obtain ⟨tc, htc, hemp, herr⟩ :=
    generatePaths_error_of_empty tcs candidates modifier pred h
  exact ⟨tc, htc, hemp, by rw [initOptimization, herr]⟩

/-- C5 witness: a predicate rejecting everything makes the setup fail with
the error naming the only traffic class. -/
theorem initOptimization_noPathFound_witness :
    ∃ tc ∈ [tcEx], acceptedPaths id (fun _ => false) ((fun _ => [pEx]) tc) = [] ∧
      initOptimization [tcEx] (fun _ => [pEx]) id (fun _ => false) 0 5 =
        .error ⟨tc.name⟩ :=
  initOptimization_noPathFound [tcEx] (fun _ => [pEx]) id (fun _ => false) 0 5
    ⟨tcEx, List.mem_cons_self tcEx [], rfl⟩

/-- C7: every path present in the path-per-traffic-class mapping returned by
`initOptimization` satisfies the caller-supplied predicate when the predicate
is re-evaluated on it. -/
theorem initOptimization_paths_satisfy_pred (tcs : List TrafficClass)
    (candidates : TrafficClass → List Path) (modifier : Path → Path)
    (pred : Path → Bool) (seed k : Nat) (m : OptModel)
    (pptc : List (TrafficClass × List Path))
    (h : initOptimization tcs candidates modifier pred seed k = .ok (m, pptc)) :
    ∀ e ∈ pptc, ∀ p ∈ e.2, pred p = true := by
  rw [initOptimization] at h
  cases hg : generatePathsPerTrafficClass tcs candidates modifier pred with
  | error e => rw [hg] at h; cases h
  | ok pptc0 =>
    rw [hg] at h
    injection h with h'
    have hp : pptc = pptc0.map fun e => (e.1, chooserand seed k e.2) :=
      (congrArg Prod.snd h').symm
    subst hp
    intro e he p hpmem
    obtain ⟨e0, he0, rfl⟩ := List.mem_map.mp he
    exact generatePaths_ok_pred tcs candidates modifier pred pptc0 hg e0 he0 p
      (chooserandGo_subset k seed e0.2 p hpmem)

/-- C7 witness: the path returned by a concrete successful setup with the
example's own service-chain predicate re-satisfies that predicate. -/
theorem initOptimization_paths_satisfy_pred_witness :
    path_predicate pEx topoEx = true :=
  initOptimization_paths_satisfy_pred [tcEx] (fun _ => [pEx]) id
    (fun p => path_predicate p topoEx) 0 1 ⟨[]⟩ [(tcEx, [pEx])] rfl
    (tcEx, [pEx]) (List.mem_cons_self _ _) pEx (List.mem_cons_self _ _)

/-- C8: random-k path selection is reproducible: the random source is the
explicit seed parameter of `initOptimization`, so two runs on identical
traffic classes, candidate universes, modifier, predicate, `k` and seed
return the same path set. -/
theorem initOptimization_random_reproducible (tcs : List TrafficClass)
    (candidates : TrafficClass → List Path) (modifier : Path → Path)
    (pred : Path → Bool) (seed₁ seed₂ k₁ k₂ : Nat)
    (hs : seed₁ = seed₂) (hk : k₁ = k₂) :
    initOptimization tcs candidates modifier pred seed₁ k₁ =
      initOptimization tcs candidates modifier pred seed₂ k₂ := by
  rw [hs, hk]

/-- C8 witness: two concrete runs with the same explicit seed coincide. -/
theorem initOptimization_random_reproducible_witness :
    initOptimization [tcEx] (fun _ => [pEx]) id
        (fun p => path_predicate p topoEx) 42 5 =
      initOptimization [tcEx] (fun _ => [pEx]) id
        (fun p => path_predicate p topoEx) 42 5 :=
  initOptimization_random_reproducible [tcEx] (fun _ => [pEx]) id
    (fun p => path_predicate p topoEx) 42 42 5 5 rfl rfl

/-- C3: the allocation constraints added by `routeAll` are satisfied by an
assignment exactly when, for every traffic class of the mapping, the sum of
that class's continuous path-fraction variables equals 1: no slack variable
and no dropped share, so every feasible assignment splits the class's traffic
fully across its accepted paths. -/
theorem routeAll_sat_iff (pptc : List (TrafficClass × List Path))
    (v : VarId → ℚ) :
    (∀ c ∈ routeAll pptc, c.sat v) ↔
      ∀ e ∈ pptc.enum, flowSum v e.1 e.2.2.length = 1 :=
  routeAllConsFrom_sat_iff v pptc 0

/-- C3 witness: under the assignment routing everything on the single path,
the concrete single-class mapping's allocation constraint is satisfied. -/
theorem routeAll_sat_iff_witness :
    Constraint.sat vEx
      (Constraint.eqC ((List.range 1).map fun j => ⟨1, VarId.flow 0 j⟩) 1) :=
  (routeAll_sat_iff pptcEx vEx).mpr
    (by
      intro e he
      simp only [pptcEx, List.enum, List.enumFrom, List.mem_singleton] at he
      subst he
      simp [flowSum, vEx, List.range_succ])
    _ (List.mem_cons_self _ _)

/-- C6: whenever the element-capacity constraints built from a capacity table
are satisfied — as they are by the variable values of any solve that ends
optimal — the aggregated load at every element of the table (the sum over
traffic classes and over the paths traversing the element of the coefficient
times the binary variable if the dimension has one, else the flow variable
times the class volume) does not exceed the element's capacity plus the
tolerance `1e-6`; and exactly one constraint per table element is built, so
elements absent from the table receive none. -/
theorem capConstraints_load_bound (pptc : List (TrafficClass × List Path))
    (capTable : List (Nat × ℚ)) (coeff : Nat → TrafficClass → Path → ℚ)
    (vol : TrafficClass → ℚ) (ub : Bool) (v : VarId → ℚ)
    (hsat : ∀ c ∈ capElementConstraints pptc capTable coeff vol ub, c.sat v) :
    (∀ ec ∈ capTable, aggLoad ec.1 coeff vol ub v pptc ≤ ec.2 + tol) ∧
    (capElementConstraints pptc capTable coeff vol ub).length =
      capTable.length := by
  constructor
  · intro ec hec
    have hc := hsat _ (List.mem_map_of_mem _ hec)
    simp only [Constraint.sat] at hc
    rw [evalTerms_capTermsFrom] at hc
    have htol : (0 : ℚ) ≤ tol := by norm_num [tol]
    calc aggLoad ec.1 coeff vol ub v pptc
        = aggLoadFrom ec.1 coeff vol ub v 0 pptc := rfl
      _ ≤ ec.2 := hc
      _ ≤ ec.2 + tol := by linarith
  · simp [capElementConstraints]

/-- C6 witness: a concrete single-node capacity table whose constraint is
satisfied by the concrete assignment, yielding the load bound at that node
and exactly one built constraint. -/
theorem capConstraints_load_bound_witness :
    aggLoad 0 (fun _ _ _ => 1) (fun tc => tc.volFlows) false vEx pptcEx ≤
      5 + tol ∧
    (capElementConstraints pptcEx [((0 : Nat), (5 : ℚ))] (fun _ _ _ => 1)
        (fun tc => tc.volFlows) false).length = 1 := by
  have hsat : ∀ c ∈ capElementConstraints pptcEx [((0 : Nat), (5 : ℚ))]
      (fun _ _ _ => 1) (fun tc => tc.volFlows) false, c.sat vEx := by
    intro c hc
    simp only [capElementConstraints, pptcEx, List.map_cons, List.map_nil,
      List.mem_singleton] at hc
    subst hc
    simp only [Constraint.sat]
    norm_num [capTermsFrom, classCapTerms, evalTerms, Path.traverses, pEx,
      tcEx, vEx]
  have h := capConstraints_load_bound pptcEx [((0 : Nat), (5 : ℚ))]
    (fun _ _ _ => 1) (fun tc => tc.volFlows) false vEx hsat
  exact ⟨h.1 ((0 : Nat), (5 : ℚ)) (List.mem_cons_self _ _), h.2⟩

/-- C4: in any solution successfully returned by `getPathFractions` from
flow-variable values lying in the variables' domain `[0, 1]`, every reported
fraction lies in `[0, 1]` and each class's fractions sum to 1 within the
tolerance `1e-6`; and whenever the kept fractions of a class fail the
tolerance check, the extractor reports an inconsistency error instead of
renormalizing. -/
theorem getPathFractions_invariant (pptc : List (TrafficClass × List Path))
    (v : VarId → ℚ)
    (hdom : ∀ i j, 0 ≤ v (VarId.flow i j) ∧ v (VarId.flow i j) ≤ 1) :
    (∀ sol, getPathFractions v pptc = .ok sol →
      ∀ e ∈ sol, (∀ pf ∈ e.2, 0 ≤ pf.2 ∧ pf.2 ≤ 1) ∧
        |(e.2.map Prod.snd).sum - 1| ≤ tol) ∧
    (∀ (tcName : String) (fracs : List (Path × ℚ)),
      ¬ |((fracs.filter fun pf => tol ≤ pf.2).map Prod.snd).sum - 1| ≤ tol →
      extractClass tcName fracs = .error ⟨tcName⟩) := by
  constructor
  · intro sol hsol e he
    obtain ⟨idx, paths, hx⟩ := getPathFractionsFrom_ok v pptc 0 sol hsol e he
    obtain ⟨hkept, hsum⟩ := extractClass_ok _ _ _ hx
    refine ⟨?_, hsum⟩
    intro pf hpf
    have hpf' : pf ∈ classFracs v idx 0 paths := by
      rw [hkept] at hpf
      exact List.mem_of_mem_filter hpf
    obtain ⟨j', hj'⟩ := classFracs_snd v idx paths 0 pf hpf'
    rw [hj']
    exact hdom idx j'
  · intro tcName fracs hbad
    simp only [extractClass]
    rw [if_neg hbad]

/-- C4 witness: the invariant instantiated at the concrete extraction
`[(tcEx, [(pEx, 1)])]` from the concrete in-domain assignment, and the
inconsistency error on a concrete out-of-tolerance fraction list. -/
theorem getPathFractions_invariant_witness :
    (0 ≤ (1 : ℚ) ∧ (1 : ℚ) ≤ 1) ∧
    |(([(pEx, (1 : ℚ))].map Prod.snd).sum - 1)| ≤ tol ∧
    extractClass "bad" [(pEx, (2 : ℚ))] = .error ⟨"bad"⟩ := by
  have h := getPathFractions_invariant pptcEx vEx (by
    intro i j
    rcases i with _ | i <;> rcases j with _ | j <;> simp [vEx])
  have hv : vEx (VarId.flow 0 0) = 1 := rfl
  have hx : extractClass tcEx.name (classFracs vEx 0 0 [pEx]) =
      .ok [(pEx, (1 : ℚ))] := by
    simp only [classFracs, hv, extractClass]
    norm_num [List.filter, tol]
  have hsol : getPathFractions vEx pptcEx = .ok [(tcEx, [(pEx, (1 : ℚ))])] := by
    simp only [getPathFractions, pptcEx, getPathFractionsFrom, hx]
  have h1 := h.1 [(tcEx, [(pEx, (1 : ℚ))])] hsol (tcEx, [(pEx, (1 : ℚ))])
    (List.mem_cons_self _ _)
  refine ⟨h1.1 (pEx, (1 : ℚ)) (List.mem_cons_self _ _), h1.2, ?_⟩
  refine h.2 "bad" [(pEx, (2 : ℚ))] ?_
  norm_num [tol, List.filter]

end SOL
